import Mathlib

/-!
Verification of the feature-engineering / preprocessing pipeline of the
bank-marketing MLOps workshop repository.

The inference orchestration (`module1/05.1_inference_data_prep.py`) and the
shared configuration (`shared_utils/config.py`) are embedded from the source.
The `FeatureEngineer` and `PreprocessingPipeline` classes live in
`module1/helpers/preprocessing.py`, which is only declared (imported) by the
sources at hand; their behaviour is modelled from the specification where a
definition's doc comment says so.

Dataframes are embedded as a column-name list plus a list of rows, each row an
association list from field name to value; numeric values are exact rationals.
Fallible operations return `Except String`.
-/

namespace Spec2Proof

/-- A cell value of a tabular record: numeric (modelled as an exact rational)
or categorical (a string). -/
inductive Val where
  | num (q : ℚ)
  | str (s : String)
deriving DecidableEq

/-- A row of a dataframe: an association list from field name to value,
in column order. -/
abbrev Row := List (String × Val)

/-- A dataframe: an ordered list of column names together with the rows. -/
structure DF where
  cols : List String
  rows : List Row
deriving DecidableEq

/-- Project one row onto the given column names, in exactly the given order;
a missing column is a hard error naming the column (pandas raises `KeyError`
when `df[[c1, ...]]` names an absent column). -/
def rowProj (cs : List String) (r : Row) : Except String Row :=
  cs.mapM (fun c =>
    match List.lookup c r with
    | some v => Except.ok (c, v)
    | none => Except.error ("KeyError: " ++ c))

/-- Column selection `df[[c1, c2, ...]]`: the output columns are exactly the
requested names in the requested order, rows are kept 1:1 in order. -/
def DF.select (cs : List String) (df : DF) : Except String DF :=
  (df.rows.mapM (rowProj cs)).map (fun rs => DF.mk cs rs)

/-! ### FeatureEngineer (modelled from the spec)

`module1/helpers/preprocessing.py` is not among the sources at hand; the
definitions below follow spec sections 4.1 and 8 (pure, row-local, fixed
half-open bins, fixed engagement-score weights). The exact numeric constants
of the source are unknown, so representative fixed constants are pinned. -/

/-- Modelled from the spec: fixed weights of the engagement score, a
pure weighted combination of the contact-count and recency fields
`campaign`, `pdays`, `previous` (spec section 4.1). -/
def engagementScore (campaign pdays previous : ℚ) : ℚ :=
  2 * campaign + 3 * previous - pdays

/-- Modelled from the spec: age binned into fixed half-open intervals
`[18,30)`, `[30,45)`, `[45,60)`, `[60,inf)`, with an explicit dedicated bin
for out-of-range values (spec section 4.1). -/
def ageGroup (a : ℚ) : String :=
  if a < 18 then "out_of_range"
  else if a < 30 then "18-29"
  else if a < 45 then "30-44"
  else if a < 60 then "45-59"
  else "60+"

/-- Modelled from the spec: `emp.var.rate` binned into fixed half-open
intervals with boundaries at -1, 0 and 1 (spec section 4.1). -/
def empVarCategory (e : ℚ) : String :=
  if e < -1 then "very_negative"
  else if e < 0 then "negative"
  else if e < 1 then "stable"
  else "positive"

/-- Modelled from the spec: call duration binned into fixed half-open
intervals with boundaries at 0, 120, 300 and 600, with an explicit dedicated
bin for out-of-range (negative) values (spec section 4.1). -/
def durationCategory (d : ℚ) : String :=
  if d < 0 then "out_of_range"
  else if d < 120 then "short"
  else if d < 300 then "medium"
  else if d < 600 then "long"
  else "very_long"

/-- Read a numeric raw field for feature engineering: a missing field is a
`SchemaError`, a categorical value where a number is expected is a
`TypeCoercionError`, each naming the offending field (spec section 4.1). -/
def getNumFE (r : Row) (c : String) : Except String ℚ :=
  match List.lookup c r with
  | some (Val.num q) => Except.ok q
  | some (Val.str _) => Except.error ("TypeCoercionError: " ++ c)
  | none => Except.error ("SchemaError: " ++ c)

/-- The four derived column names appended by feature engineering. -/
def derivedCols : List String :=
  ["engagement_score", "age_group", "emp_var_category", "duration_category"]

/-- Modelled from the spec: engineer one record. Pure function of the raw
fields of this row only; appends the derived fields after the existing
fields, so no existing field (in particular `row_id`) is dropped, reordered
or shadowed (spec sections 4.1 and 3). -/
def engineerRow (r : Row) : Except String Row := do
  let campaign ← getNumFE r "campaign"
  let pdays ← getNumFE r "pdays"
  let previous ← getNumFE r "previous"
  let age ← getNumFE r "age"
  let ev ← getNumFE r "emp.var.rate"
  let dur ← getNumFE r "duration"
  Except.ok (r ++
    [("engagement_score", Val.num (engagementScore campaign pdays previous)),
     ("age_group", Val.str (ageGroup age)),
     ("emp_var_category", Val.str (empVarCategory ev)),
     ("duration_category", Val.str (durationCategory dur))])

/-- Modelled from the spec: `FeatureEngineer.transform` on a dataframe maps
`engineerRow` over the rows, never dropping or reordering rows
(spec section 4.1). -/
def featureTransformDF (df : DF) : Except String DF :=
  (df.rows.mapM engineerRow).map (fun rs => DF.mk (df.cols ++ derivedCols) rs)

/-- Modelled from the spec: the `FeatureEngineer` component is stateless --
its only constants are the fixed bin edges and weights, which are module-level
constants here, so the structure carries no fields (spec section 3,
Lifecycle). -/
structure FeatureEngineer where
deriving DecidableEq

/-- Modelled from the spec: the transform method of a `FeatureEngineer`
instance; it consults no per-instance state. -/
def FeatureEngineer.transform (_fe : FeatureEngineer) (df : DF) :
    Except String DF :=
  featureTransformDF df

/-! ### PreprocessingPipeline (modelled from the spec)

Spec sections 4.2 and 8: numeric scaling `(value - mean) / scale` with the
scale capped below by a documented positive floor; stable category-to-column
one-hot encoding frozen at fit time; unknown categories at transform time map
to the all-zero one-hot row and are counted, never an error; a feature the
fitted schema expects but the input lacks is a `SchemaMismatchError`. The
standard deviation of the source is modelled by an exact computable
dispersion (the population variance) because a square root would leave the
rationals; the capping logic is exactly as specified. -/

/-- Modelled from the spec: the fitted-preprocessor artifact, holding the
frozen per-feature `(name, mean, scale)` statistics and the frozen
`(name, categories)` one-hot layouts, in schema order (spec section 3). -/
structure FittedPreprocessor where
  numStats : List (String × ℚ × ℚ)
  catMaps : List (String × List String)
deriving DecidableEq

/-- Modelled from the spec: the documented small positive floor below which a
fitted scale is never allowed to fall (spec section 4.2). -/
def scaleFloor : ℚ := 1 / 100000000

/-- Mean of a list of rationals. -/
def meanOf (vs : List ℚ) : ℚ := vs.sum / vs.length

/-- Population variance of a list of rationals, the modelled dispersion. -/
def varOf (vs : List ℚ) : ℚ :=
  ((vs.map (fun v => (v - meanOf vs) ^ 2)).sum) / vs.length

/-- Modelled from the spec: the stored scale is the dispersion capped below
at `scaleFloor`, so it is never zero (spec section 4.2). -/
def scaleOf (vs : List ℚ) : ℚ := max (varOf vs) scaleFloor

/-- Read a numeric field during preprocessing: a field the fitted schema
expects but the row lacks is a `SchemaMismatchError` naming the feature
(spec sections 4.2 and 7). -/
def getNumPP (r : Row) (c : String) : Except String ℚ :=
  match List.lookup c r with
  | some (Val.num q) => Except.ok q
  | some (Val.str _) => Except.error ("TypeCoercionError: " ++ c)
  | none => Except.error ("SchemaMismatchError: " ++ c)

/-- Read a categorical field during preprocessing; missing field is a
`SchemaMismatchError` naming the feature (spec sections 4.2 and 7). -/
def getStrPP (r : Row) (c : String) : Except String String :=
  match List.lookup c r with
  | some (Val.str s) => Except.ok s
  | some (Val.num _) => Except.error ("TypeCoercionError: " ++ c)
  | none => Except.error ("SchemaMismatchError: " ++ c)

/-- Modelled from the spec: fit the statistics of one numeric feature over
the whole fit dataset. -/
def fitNum (c : String) (rows : List Row) : Except String (String × ℚ × ℚ) :=
  (rows.mapM (fun r => getNumPP r c)).map (fun vs => (c, meanOf vs, scaleOf vs))

/-- Modelled from the spec: fit the category list of one categorical feature:
the distinct values in first-occurrence order, a stable category-to-column
mapping (spec section 4.2). -/
def fitCat (c : String) (rows : List Row) : Except String (String × List String) :=
  (rows.mapM (fun r => getStrPP r c)).map (fun vs => (c, vs.eraseDups))

/-- Modelled from the spec: `fit` computes scaling statistics and category
layouts for the given schema from the given dataset and freezes them in a
`FittedPreprocessor` (spec section 4.2). -/
def fit (numF catF : List String) (rows : List Row) :
    Except String FittedPreprocessor := do
  let ns ← numF.mapM (fun c => fitNum c rows)
  let cs ← catF.mapM (fun c => fitCat c rows)
  Except.ok ⟨ns, cs⟩

/-- Modelled from the spec: one-hot encode a value against the frozen
category list; a value absent from the list yields the all-zero row of the
same fixed length, never an out-of-bounds index (spec section 4.2). -/
def oneHot (cats : List String) (v : String) : List ℚ :=
  cats.map (fun c => if c = v then 1 else 0)

/-- Modelled from the spec: apply the frozen statistics to one row, producing
its feature vector in the stored schema order together with the number of
unknown categorical values met in the row (counted, not fatal). -/
def applyRow (P : FittedPreprocessor) (r : Row) : Except String (List ℚ × ℕ) := do
  let nums ← P.numStats.mapM (fun t =>
    (getNumPP r t.1).map (fun v => (v - t.2.1) / t.2.2))
  let cats ← P.catMaps.mapM (fun t =>
    (getStrPP r t.1).map (fun v =>
      (oneHot t.2 v, if v ∈ t.2 then (0 : ℕ) else 1)))
  Except.ok (nums ++ (cats.map Prod.fst).flatten, (cats.map Prod.snd).sum)

/-- Modelled from the spec: `PreprocessingPipeline.transform` applies a
previously fitted preprocessor to every row without recomputing statistics,
returning the feature matrix and the audited count of unknown categories
(spec section 4.2). -/
def ppTransform (P : FittedPreprocessor) (rows : List Row) :
    Except String (List (List ℚ) × ℕ) :=
  (rows.mapM (applyRow P)).map (fun outs =>
    (outs.map Prod.fst, (outs.map Prod.snd).sum))

/-- Modelled from the spec: `PreprocessingPipeline.fit_transform` fits the
statistics on the dataset and applies them to the same rows in one call,
returning the matrix along with the fitted artifact (spec section 4.2). -/
def ppFitTransform (numF catF : List String) (rows : List Row) :
    Except String ((List (List ℚ) × ℕ) × FittedPreprocessor) := do
  let P ← fit numF catF rows
  let out ← ppTransform P rows
  Except.ok (out, P)

/-! ### Inference orchestration, embedded from `05.1_inference_data_prep.py`
and `shared_utils/config.py`. -/

/-- The hardcoded numeric feature list of `extract_engineered_features`
(05.1_inference_data_prep.py lines 150-153, 161-162): `engagement_score` is
appended when `include_engagement` is set. -/
def numericFeatures (includeEngagement : Bool) : List String :=
  ["age", "duration", "campaign", "pdays", "previous",
   "emp.var.rate", "cons.price.idx", "cons.conf.idx", "euribor3m",
   "nr.employed"] ++ (if includeEngagement then ["engagement_score"] else [])

/-- The hardcoded categorical feature list of `extract_engineered_features`
(05.1_inference_data_prep.py lines 155-159). -/
def categoricalFeatures : List String :=
  ["job", "marital", "education", "default",
   "housing", "loan", "contact", "month", "day_of_week", "poutcome",
   "age_group", "emp_var_category", "duration_category"]

/-- The `FEATURE_CONFIG` dictionary of `shared_utils/config.py`
(lines 19-29): the feature lists declared for model training. -/
def featureConfigNumeric : List String :=
  ["age", "balance", "day", "duration", "campaign", "pdays", "previous"]

/-- The categorical half of `FEATURE_CONFIG` (config.py lines 25-28). -/
def featureConfigCategorical : List String :=
  ["job", "marital", "education", "default",
   "housing", "loan", "contact", "month", "poutcome"]

/-- `apply_feature_engineering` (05.1 lines 109-130): constructs a fresh
`FeatureEngineer`, transforms the dataframe, and returns both. -/
def applyFeatureEngineering (df : DF) : Except String (DF × FeatureEngineer) :=
  let fe : FeatureEngineer := ⟨⟩
  (fe.transform df).map (fun d => (d, fe))

/-- `extract_engineered_features` (05.1 lines 133-175): selects the hardcoded
feature columns, prepending `row_id` when the input carries that column; the
selection order is the hardcoded list order, not the input order. -/
def extractEngineeredFeatures (df : DF) (includeEngagement : Bool) :
    Except String DF :=
  let feats := numericFeatures includeEngagement ++ categoricalFeatures
  if "row_id" ∈ df.cols then DF.select ("row_id" :: feats) df
  else DF.select feats df

/-- The pipeline operations that `main` of 05.1_inference_data_prep.py can
perform, for reasoning about which calls the inference path makes. -/
inductive Op where
  | loadRawData
  | feTransform
  | extractFeatures
  | saveEngineeredData
  | saveFEArtifact
  | ppFitTransformOp
  | ppTransformOp
deriving DecidableEq

/-- The trace of pipeline operations of `main` (05.1 lines 225-308) in source
order: load raw data (line 250), feature engineering (line 259), feature
extraction (line 268), save engineered data (line 280), save the
feature-engineer artifact (line 281). No preprocessing call appears. -/
def mainTrace : List Op :=
  [Op.loadRawData, Op.feTransform, Op.extractFeatures,
   Op.saveEngineeredData, Op.saveFEArtifact]

/-- The dataframe transformation performed by `main` (05.1 lines 254-270):
feature engineering followed by extraction with `include_engagement=True`. -/
def mainDataFlow (raw : DF) : Except String DF := do
  let p ← applyFeatureEngineering raw
  extractEngineeredFeatures p.1 true

/-! ### Helper lemmas about `List.mapM` in the `Except` monad. -/

theorem exceptMapM_nil {α β ε : Type} (f : α → Except ε β) :
    ([] : List α).mapM f = Except.ok [] := rfl

theorem exceptMapM_cons {α β ε : Type} (f : α → Except ε β) (a : α) (l : List α) :
    (a :: l).mapM f =
      (f a).bind (fun b => (l.mapM f).bind (fun bs => Except.ok (b :: bs))) := by
  rw [List.mapM_cons]
  rfl

theorem exceptMapM_ok_length {α β ε : Type} {f : α → Except ε β} {l : List α}
    {out : List β} (h : l.mapM f = Except.ok out) : out.length = l.length := by
  induction l generalizing out with
  | nil =>
    rw [exceptMapM_nil] at h
    cases h
    rfl
  | cons a l ih =>
    rw [exceptMapM_cons] at h
    cases hfa : f a with
    | error e => rw [hfa] at h; cases h
    | ok b =>
      rw [hfa] at h
      cases hl : l.mapM f with
      | error e => rw [hl] at h; cases h
      | ok bs =>
        rw [hl] at h
        cases h
        simp [ih hl]

theorem exceptMapM_ok_get {α β ε : Type} {f : α → Except ε β} {l : List α}
    {out : List β} (h : l.mapM f = Except.ok out) :
    ∀ i a, l.get? i = some a → ∃ b, f a = Except.ok b ∧ out.get? i = some b := by
  induction l generalizing out with
  | nil => intro i a ha; simp at ha
  | cons x l ih =>
    rw [exceptMapM_cons] at h
    cases hfa : f x with
    | error e => rw [hfa] at h; cases h
    | ok b =>
      rw [hfa] at h
      cases hl : l.mapM f with
      | error e => rw [hl] at h; cases h
      | ok bs =>
        rw [hl] at h
        cases h
        intro i a ha
        cases i with
        | zero =>
          simp at ha
          subst ha
          exact ⟨b, hfa, rfl⟩
        | succ j =>
          simp only [List.get?_cons_succ] at ha ⊢
          exact ih hl j a ha

theorem exceptMapM_error_of_mem {α β ε : Type} {f : α → Except ε β} {l : List α}
    {a : α} {e : ε} (ha : a ∈ l) (hf : f a = Except.error e) :
    ∀ out, l.mapM f ≠ Except.ok out := by
  induction l with
  | nil => cases ha
  | cons x l ih =>
    intro out h
    rw [exceptMapM_cons] at h
    cases hfa : f x with
    | error e2 => rw [hfa] at h; cases h
    | ok b =>
      rw [hfa] at h
      cases hl : l.mapM f with
      | error e2 => rw [hl] at h; cases h
      | ok bs =>
        cases List.mem_cons.mp ha with
        | inl hax =>
          subst hax
          rw [hf] at hfa
          cases hfa
        | inr hal => exact ih hal bs hl

theorem exceptMapM_const {α β ε : Type} {f : α → Except ε β} {l : List α}
    {b : β} (h : ∀ a ∈ l, f a = Except.ok b) :
    l.mapM f = Except.ok (List.replicate l.length b) := by
  induction l with
  | nil => rfl
  | cons x l ih =>
    rw [exceptMapM_cons, h x (List.mem_cons_self x l),
      ih (fun a ha => h a (List.mem_cons_of_mem x ha))]
    rfl

theorem exceptMapM_congr {α β ε : Type} {f g : α → Except ε β} {l : List α}
    (h : ∀ a ∈ l, f a = g a) : l.mapM f = l.mapM g := by
  induction l with
  | nil => rfl
  | cons x l ih =>
    rw [exceptMapM_cons, exceptMapM_cons, h x (List.mem_cons_self x l),
      ih (fun a ha => h a (List.mem_cons_of_mem x ha))]

theorem exceptMapM_fst {α β ε : Type} {f : α → Except ε β} {l : List α}
    {out : List β} {g : β → α} (h : l.mapM f = Except.ok out)
    (hf : ∀ a b, f a = Except.ok b → g b = a) : out.map g = l := by
  induction l generalizing out with
  | nil =>
    rw [exceptMapM_nil] at h
    cases h
    rfl
  | cons x l ih =>
    rw [exceptMapM_cons] at h
    cases hfa : f x with
    | error e => rw [hfa] at h; cases h
    | ok b =>
      rw [hfa] at h
      cases hl : l.mapM f with
      | error e => rw [hl] at h; cases h
      | ok bs =>
        rw [hl] at h
        cases h
        simp [hf x b hfa, ih hl]

theorem exceptMapM_mem {α β ε : Type} {f : α → Except ε β} {l : List α}
    {out : List β} {a : α} (h : l.mapM f = Except.ok out) (ha : a ∈ l) :
    ∃ b ∈ out, f a = Except.ok b := by
  induction l generalizing out with
  | nil => cases ha
  | cons x l ih =>
    rw [exceptMapM_cons] at h
    cases hfa : f x with
    | error e => rw [hfa] at h; cases h
    | ok b =>
      rw [hfa] at h
      cases hl : l.mapM f with
      | error e => rw [hl] at h; cases h
      | ok bs =>
        rw [hl] at h
        cases h
        cases List.mem_cons.mp ha with
        | inl hax =>
          subst hax
          exact ⟨b, List.mem_cons_self b bs, hfa⟩
        | inr hal =>
          obtain ⟨b2, hb2, hfb2⟩ := ih hl hal
          exact ⟨b2, List.mem_cons_of_mem b hb2, hfb2⟩

/-! ### Helper lemmas about association-list lookup. -/

theorem lookup_append_some {c : String} {r e : Row} {v : Val}
    (h : List.lookup c r = some v) : List.lookup c (r ++ e) = some v := by
  induction r with
  | nil => cases h
  | cons p r ih =>
    rw [List.cons_append]
    rw [List.lookup] at h ⊢
    cases hk : c == p.1 with
    | true => rw [hk] at h; exact h
    | false => rw [hk] at h; exact ih h

theorem lookup_append_none {c : String} {r : Row} (e : Row)
    (h : List.lookup c r = none) : List.lookup c (r ++ e) = List.lookup c e := by
  induction r with
  | nil => rfl
  | cons p r ih =>
    rw [List.cons_append]
    rw [List.lookup] at h ⊢
    cases hk : c == p.1 with
    | true => rw [hk] at h; cases h
    | false => rw [hk] at h; exact ih h

/-- Feature engineering only appends the four derived fields after the
existing fields of a row. -/
theorem engineerRow_ok_shape {r er : Row} (h : engineerRow r = Except.ok er) :
    ∃ a b c d, er = r ++
      [("engagement_score", a), ("age_group", b),
       ("emp_var_category", c), ("duration_category", d)] := by
  rw [engineerRow] at h
  simp only [bind, Except.bind] at h
  cases h1 : getNumFE r "campaign" with
  | error e => rw [h1] at h; cases h
  | ok campaign =>
  rw [h1] at h
  cases h2 : getNumFE r "pdays" with
  | error e => rw [h2] at h; cases h
  | ok pdays =>
  rw [h2] at h
  cases h3 : getNumFE r "previous" with
  | error e => rw [h3] at h; cases h
  | ok previous =>
  rw [h3] at h
  cases h4 : getNumFE r "age" with
  | error e => rw [h4] at h; cases h
  | ok age =>
  rw [h4] at h
  cases h5 : getNumFE r "emp.var.rate" with
  | error e => rw [h5] at h; cases h
  | ok ev =>
  rw [h5] at h
  cases h6 : getNumFE r "duration" with
  | error e => rw [h6] at h; cases h
  | ok dur =>
  rw [h6] at h
  cases h
  exact ⟨_, _, _, _, rfl⟩

/-- Feature engineering never changes the value found for a field that is not
one of the four derived fields; in particular `row_id` survives unchanged. -/
theorem engineerRow_lookup_eq {r er : Row} (h : engineerRow r = Except.ok er)
    {c : String} (hc : c ∉ derivedCols) :
    List.lookup c er = List.lookup c r := by
  obtain ⟨a, b, c2, d, rfl⟩ := engineerRow_ok_shape h
  cases hr : List.lookup c r with
  | some v => exact lookup_append_some hr
  | none =>
    rw [lookup_append_none _ hr]
    have h1 : (c == "engagement_score") = false :=
      beq_eq_false_iff_ne.mpr (fun hx => hc (by simp [derivedCols, hx]))
    have h2 : (c == "age_group") = false :=
      beq_eq_false_iff_ne.mpr (fun hx => hc (by simp [derivedCols, hx]))
    have h3 : (c == "emp_var_category") = false :=
      beq_eq_false_iff_ne.mpr (fun hx => hc (by simp [derivedCols, hx]))
    have h4 : (c == "duration_category") = false :=
      beq_eq_false_iff_ne.mpr (fun hx => hc (by simp [derivedCols, hx]))
    simp [List.lookup, h1, h2, h3, h4]

/-- Projecting a row onto columns headed by `row_id` keeps the `row_id`
value of the input row. -/
theorem rowProj_rowid {cs : List String} {r pr : Row}
    (h : rowProj ("row_id" :: cs) r = Except.ok pr) :
    List.lookup "row_id" pr = List.lookup "row_id" r := by
  rw [rowProj, exceptMapM_cons] at h
  cases hr : List.lookup "row_id" r with
  | none => rw [hr] at h; cases h
  | some v =>
    rw [hr] at h
    simp only [Except.bind] at h
    cases hrest : cs.mapM (fun c =>
        match List.lookup c r with
        | some v => Except.ok (c, v)
        | none => Except.error ("KeyError: " ++ c)) with
    | error e => rw [hrest] at h; cases h
    | ok ps =>
      rw [hrest] at h
      cases h
      simp [List.lookup]

/-- The name stored by `fitNum` is the feature name it was asked to fit. -/
theorem fitNum_fst {c : String} {rows : List Row} {t : String × ℚ × ℚ}
    (h : fitNum c rows = Except.ok t) : t.1 = c := by
  rw [fitNum] at h
  cases hm : rows.mapM (fun r => getNumPP r c) with
  | error e => rw [hm] at h; cases h
  | ok vs => rw [hm] at h; cases h; rfl

/-- The name stored by `fitCat` is the feature name it was asked to fit. -/
theorem fitCat_fst {c : String} {rows : List Row} {t : String × List String}
    (h : fitCat c rows = Except.ok t) : t.1 = c := by
  rw [fitCat] at h
  cases hm : rows.mapM (fun r => getStrPP r c) with
  | error e => rw [hm] at h; cases h
  | ok vs => rw [hm] at h; cases h; rfl

/-- If a row lacks a numeric feature the fitted schema expects, applying the
fitted statistics to that row is an error. -/
theorem applyRow_error_of_missing_num {P : FittedPreprocessor} {r : Row}
    {n : String} (hn : n ∈ P.numStats.map Prod.fst)
    (hmiss : List.lookup n r = none) : ∃ e, applyRow P r = Except.error e := by
  obtain ⟨t, ht, htn⟩ := List.mem_map.mp hn
  have herr : (getNumPP r t.1).map (fun v => (v - t.2.1) / t.2.2) =
      Except.error ("SchemaMismatchError: " ++ n) := by
    rw [htn, getNumPP, hmiss]
    rfl
  cases hm : P.numStats.mapM (fun t =>
      (getNumPP r t.1).map (fun v => (v - t.2.1) / t.2.2)) with
  | error e =>
    refine ⟨e, ?_⟩
    rw [applyRow]
    simp only [bind, Except.bind]
    rw [hm]
  | ok nums =>
    exact absurd hm (exceptMapM_error_of_mem ht herr nums)

/-- An error on the first row makes the whole batch transform that error. -/
theorem ppTransform_cons_error {P : FittedPreprocessor} {r : Row}
    {rest : List Row} {e : String} (h : applyRow P r = Except.error e) :
    ppTransform P (r :: rest) = Except.error e := by
  rw [ppTransform, exceptMapM_cons, h]
  rfl

/-- If a row lacks a categorical feature the fitted schema expects, applying
the fitted statistics to that row is an error. -/
theorem applyRow_error_of_missing_cat {P : FittedPreprocessor} {r : Row}
    {n : String} (hn : n ∈ P.catMaps.map Prod.fst)
    (hmiss : List.lookup n r = none) : ∃ e, applyRow P r = Except.error e := by
  obtain ⟨t, ht, htn⟩ := List.mem_map.mp hn
  have herr : (getStrPP r t.1).map (fun v =>
      (oneHot t.2 v, if v ∈ t.2 then (0 : ℕ) else 1)) =
      Except.error ("SchemaMismatchError: " ++ n) := by
    rw [htn, getStrPP, hmiss]
    rfl
  cases hm : P.numStats.mapM (fun t =>
      (getNumPP r t.1).map (fun v => (v - t.2.1) / t.2.2)) with
  | error e =>
    refine ⟨e, ?_⟩
    rw [applyRow]
    simp only [bind, Except.bind]
    rw [hm]
  | ok nums =>
    cases hc : P.catMaps.mapM (fun t =>
        (getStrPP r t.1).map (fun v =>
          (oneHot t.2 v, if v ∈ t.2 then (0 : ℕ) else 1))) with
    | error e =>
      refine ⟨e, ?_⟩
      rw [applyRow]
      simp only [bind, Except.bind, hm, hc]
    | ok catParts =>
      exact absurd hc (exceptMapM_error_of_mem ht herr catParts)

/-- A row erroring anywhere in a batch keeps the whole batch transform from
returning a matrix. -/
theorem ppTransform_error_of_mem {P : FittedPreprocessor} {rows : List Row}
    {r : Row} {e : String} (hr : r ∈ rows)
    (h : applyRow P r = Except.error e) :
    ∀ out, ppTransform P rows ≠ Except.ok out := by
  intro out hok
  rw [ppTransform] at hok
  cases hm : rows.mapM (applyRow P) with
  | error e2 => rw [hm] at hok; cases hok
  | ok outs => exact absurd hm (exceptMapM_error_of_mem hr h outs)

/-! ### Claim theorems. -/

/-- C1. Train/serve round-trip identity: when the engineered dataset `E`
obtained from `D` is used to fit the preprocessor, producing matrix `m` and
artifact `P` inside `ppFitTransform`, then re-ingesting the identical rows
`D` engineers them to the same `E` (feature engineering is a pure function)
and applying the frozen `P` with `ppTransform` reproduces exactly the
matrix `m`, with no re-estimation. -/
theorem c1_train_serve_roundtrip (D E : DF) (nf cf : List String)
    (m : List (List ℚ) × ℕ) (P : FittedPreprocessor)
    (h1 : featureTransformDF D = Except.ok E)
    (h2 : ppFitTransform nf cf E.rows = Except.ok (m, P)) :
    featureTransformDF D = Except.ok E ∧ ppTransform P E.rows = Except.ok m := by
  refine ⟨h1, ?_⟩
  rw [ppFitTransform] at h2
  simp only [bind, Except.bind] at h2
  cases hf : fit nf cf E.rows with
  | error e => rw [hf] at h2; cases h2
  | ok P2 =>
    simp only [hf] at h2
    cases ht : ppTransform P2 E.rows with
    | error e => simp only [ht] at h2; cases h2
    | ok out =>
      simp only [ht] at h2
      cases h2
      exact ht

/-- C2. The inference data-preparation program (`main` of
05.1_inference_data_prep.py) never calls `fit_transform` and never applies
any preprocessing transform at all: the only transformation applied to the
input records in its operation trace is `FeatureEngineer.transform`, so no
scaling statistics or category mappings are re-estimated at inference
time. -/
theorem c2_inference_never_fits :
    Op.ppFitTransformOp ∉ mainTrace ∧ Op.ppTransformOp ∉ mainTrace ∧
    Op.feTransform ∈ mainTrace := by decide

/-- C3. Schema mismatch is a hard error: the fitted artifact stores exactly
the schema it was fit with (same names, same order, numeric and
categorical), and any record of a batch missing any feature -- numeric or
categorical -- that the fitted preprocessor expects makes `ppTransform`
fail: it never returns a matrix (no silent zero-fill or reshape), and when
the missing numeric or categorical feature is consulted the error is a
`SchemaMismatchError` naming it. -/
theorem c3_schema_mismatch_hard_error :
    (∀ (nf cf : List String) (rows : List Row) (P : FittedPreprocessor),
      fit nf cf rows = Except.ok P →
      P.numStats.map Prod.fst = nf ∧ P.catMaps.map Prod.fst = cf) ∧
    (∀ (P : FittedPreprocessor) (rows : List Row) (r : Row) (n : String),
      r ∈ rows →
      (n ∈ P.numStats.map Prod.fst ∨ n ∈ P.catMaps.map Prod.fst) →
      List.lookup n r = none →
      ∀ out, ppTransform P rows ≠ Except.ok out) ∧
    (∀ (n : String) (m s : ℚ) (ts : List (String × ℚ × ℚ))
      (cm : List (String × List String)) (r : Row) (rest : List Row),
      List.lookup n r = none →
      ppTransform ⟨(n, m, s) :: ts, cm⟩ (r :: rest) =
        Except.error ("SchemaMismatchError: " ++ n)) ∧
    (∀ (n : String) (cats : List String) (ts : List (String × List String))
      (r : Row) (rest : List Row),
      List.lookup n r = none →
      ppTransform ⟨[], (n, cats) :: ts⟩ (r :: rest) =
        Except.error ("SchemaMismatchError: " ++ n)) := by
  refine ⟨?_, ?_, ?_, ?_⟩
  · intro nf cf rows P h
    rw [fit] at h
    simp only [bind, Except.bind] at h
    cases hn : nf.mapM (fun c => fitNum c rows) with
    | error e => rw [hn] at h; cases h
    | ok ns =>
      rw [hn] at h
      cases hc : cf.mapM (fun c => fitCat c rows) with
      | error e => rw [hc] at h; cases h
      | ok cs =>
        rw [hc] at h
        cases h
        exact ⟨exceptMapM_fst hn (fun a b hb => fitNum_fst hb),
          exceptMapM_fst hc (fun a b hb => fitCat_fst hb)⟩
  · intro P rows r n hr hn hmiss out
    cases hn with
    | inl hnum =>
      obtain ⟨e, he⟩ := applyRow_error_of_missing_num hnum hmiss
      exact ppTransform_error_of_mem hr he out
    | inr hcat =>
      obtain ⟨e, he⟩ := applyRow_error_of_missing_cat hcat hmiss
      exact ppTransform_error_of_mem hr he out
  · intro n m s ts cm r rest hmiss
    have he : applyRow ⟨(n, m, s) :: ts, cm⟩ r =
        Except.error ("SchemaMismatchError: " ++ n) := by
      rw [applyRow]
      simp only [bind, Except.bind]
      rw [exceptMapM_cons]
      have : getNumPP r n = Except.error ("SchemaMismatchError: " ++ n) := by
        rw [getNumPP, hmiss]
      simp only [this]
      rfl
    exact ppTransform_cons_error he
  · intro n cats ts r rest hmiss
    have he : applyRow ⟨[], (n, cats) :: ts⟩ r =
        Except.error ("SchemaMismatchError: " ++ n) := by
      rw [applyRow]
      simp only [bind, Except.bind, exceptMapM_nil]
      rw [exceptMapM_cons]
      have : getStrPP r n = Except.error ("SchemaMismatchError: " ++ n) := by
        rw [getStrPP, hmiss]
      simp only [this]
      rfl
    exact ppTransform_cons_error he

/-- C6. Determinism and row-locality of feature engineering: transforming
the same dataframe twice yields identical output, and the engineered output
row at a position depends only on the input row at that position -- the same
input row produces the same engineered row regardless of which other rows
share the batch, so there is no randomness and no cross-row dependence. -/
theorem c6_feature_engineering_deterministic :
    (∀ df : DF, featureTransformDF df = featureTransformDF df) ∧
    (∀ (df1 df2 E1 E2 : DF) (i j : ℕ) (r : Row),
      featureTransformDF df1 = Except.ok E1 →
      featureTransformDF df2 = Except.ok E2 →
      df1.rows.get? i = some r → df2.rows.get? j = some r →
      E1.rows.get? i = E2.rows.get? j) := by
  refine ⟨fun df => rfl, ?_⟩
  intro df1 df2 E1 E2 i j r h1 h2 hi hj
  rw [featureTransformDF] at h1 h2
  cases hm1 : df1.rows.mapM engineerRow with
  | error e => rw [hm1] at h1; cases h1
  | ok rs1 =>
    rw [hm1] at h1
    cases hm2 : df2.rows.mapM engineerRow with
    | error e => rw [hm2] at h2; cases h2
    | ok rs2 =>
      rw [hm2] at h2
      cases h1
      cases h2
      obtain ⟨b1, hfb1, ho1⟩ := exceptMapM_ok_get hm1 i r hi
      obtain ⟨b2, hfb2, ho2⟩ := exceptMapM_ok_get hm2 j r hj
      rw [hfb1] at hfb2
      cases hfb2
      simp only [ho1, ho2]

/-- A successful column selection yields exactly the requested column list. -/
theorem select_ok_cols {cs : List String} {df X : DF}
    (h : DF.select cs df = Except.ok X) : X.cols = cs := by
  rw [DF.select] at h
  cases hm : df.rows.mapM (rowProj cs) with
  | error e => rw [hm] at h; cases h
  | ok rs => rw [hm] at h; cases h; rfl

/-- C4. Row-id preservation: when the input dataframe carries a `row_id`
column, feature engineering followed by feature extraction keeps the same
number of rows in the same order, and the `row_id` value of every output row
equals the `row_id` of the corresponding input row, through both steps. -/
theorem c4_row_id_preserved (df E X : DF)
    (h1 : featureTransformDF df = Except.ok E)
    (h2 : extractEngineeredFeatures E true = Except.ok X)
    (h3 : "row_id" ∈ df.cols) :
    E.rows.length = df.rows.length ∧ X.rows.length = df.rows.length ∧
    ∀ i r, df.rows.get? i = some r →
      ∃ er xr, E.rows.get? i = some er ∧ X.rows.get? i = some xr ∧
        List.lookup "row_id" er = List.lookup "row_id" r ∧
        List.lookup "row_id" xr = List.lookup "row_id" r := by
  rw [featureTransformDF] at h1
  cases hm1 : df.rows.mapM engineerRow with
  | error e => rw [hm1] at h1; cases h1
  | ok rs1 =>
    rw [hm1] at h1
    cases h1
    rw [extractEngineeredFeatures] at h2
    have hrid : "row_id" ∈ df.cols ++ derivedCols := List.mem_append_left _ h3
    rw [if_pos hrid] at h2
    rw [DF.select] at h2
    simp only at h2
    cases hm2 : rs1.mapM
        (rowProj ("row_id" :: (numericFeatures true ++ categoricalFeatures))) with
    | error e => rw [hm2] at h2; cases h2
    | ok rs2 =>
      rw [hm2] at h2
      cases h2
      refine ⟨exceptMapM_ok_length hm1, ?_, ?_⟩
      · exact (exceptMapM_ok_length hm2).trans (exceptMapM_ok_length hm1)
      · intro i r hi
        obtain ⟨er, hfer, hoe⟩ := exceptMapM_ok_get hm1 i r hi
        obtain ⟨xr, hfxr, hox⟩ := exceptMapM_ok_get hm2 i er hoe
        refine ⟨er, xr, hoe, hox, ?_, ?_⟩
        · exact engineerRow_lookup_eq hfer (by decide)
        · exact (rowProj_rowid hfxr).trans
            (engineerRow_lookup_eq hfer (by decide))

/-- C5. The output column order of feature extraction is fixed by the
hardcoded schema lists, not by the input: a successful extraction's columns
are exactly the fixed list (with `row_id` prepended when present); the
result is unchanged when the input dataframe's declared column order changes
(same rows, same `row_id` membership); and projecting a row depends only on
the values found for the selected names, not on the field order of the
input row. -/
theorem c5_output_column_order_fixed :
    (∀ (df : DF) (b : Bool) (X : DF),
      extractEngineeredFeatures df b = Except.ok X →
      X.cols = if "row_id" ∈ df.cols
        then "row_id" :: (numericFeatures b ++ categoricalFeatures)
        else numericFeatures b ++ categoricalFeatures) ∧
    (∀ (df df2 : DF) (b : Bool), df.rows = df2.rows →
      ("row_id" ∈ df.cols ↔ "row_id" ∈ df2.cols) →
      extractEngineeredFeatures df b = extractEngineeredFeatures df2 b) ∧
    (∀ (cs : List String) (r r2 : Row),
      (∀ c ∈ cs, List.lookup c r = List.lookup c r2) →
      rowProj cs r = rowProj cs r2) := by
  refine ⟨?_, ?_, ?_⟩
  · intro df b X h
    rw [extractEngineeredFeatures] at h
    by_cases hr : "row_id" ∈ df.cols
    · rw [if_pos hr] at h
      rw [if_pos hr]
      exact select_ok_cols h
    · rw [if_neg hr] at h
      rw [if_neg hr]
      exact select_ok_cols h
  · intro df df2 b hrows hiff
    rw [extractEngineeredFeatures, extractEngineeredFeatures]
    by_cases hr : "row_id" ∈ df.cols
    · rw [if_pos hr, if_pos (hiff.mp hr)]
      simp only [DF.select, hrows]
    · rw [if_neg hr, if_neg (fun h => hr (hiff.mpr h))]
      simp only [DF.select, hrows]
  · intro cs r r2 h
    rw [rowProj, rowProj]
    exact exceptMapM_congr (fun c hc => by rw [h c hc])

/-- A category value absent from the frozen category list one-hot encodes to
the all-zero row of the fixed layout length. -/
theorem oneHot_unknown {cats : List String} {v : String} (hv : v ∉ cats) :
    oneHot cats v = List.replicate cats.length 0 := by
  induction cats with
  | nil => rfl
  | cons c cats ih =>
    have hcv : ¬ c = v := fun h => hv (by simp [h])
    have hvc : v ∉ cats := fun h => hv (List.mem_cons_of_mem _ h)
    simp only [oneHot, List.map_cons, List.length_cons, List.replicate_succ,
      if_neg hcv]
    rw [← oneHot, ih hvc]

/-- C7. Unknown-category fallback: a categorical value never seen during fit
one-hot encodes deterministically to the all-zero row of the frozen layout
(never an out-of-bounds index -- the encoding length always equals the frozen
layout length), and a batch containing such a value transforms successfully,
with the occurrence reported in the returned unknown-category count rather
than failing the batch. -/
theorem c7_unknown_category_fallback :
    (∀ (cats : List String) (v : String), v ∉ cats →
      oneHot cats v = List.replicate cats.length 0) ∧
    (∀ (cats : List String) (v : String),
      (oneHot cats v).length = cats.length) ∧
    (∀ (n : String) (cats : List String) (r : Row) (v : String),
      List.lookup n r = some (Val.str v) → v ∉ cats →
      ppTransform ⟨[], [(n, cats)]⟩ [r] =
        Except.ok ([List.replicate cats.length 0], 1)) := by
  refine ⟨fun cats v hv => oneHot_unknown hv, ?_, ?_⟩
  · intro cats v
    simp [oneHot]
  · intro n cats r v hl hv
    have hg : getStrPP r n = Except.ok v := by rw [getStrPP, hl]
    have ha : applyRow ⟨[], [(n, cats)]⟩ r =
        Except.ok (List.replicate cats.length 0, 1) := by
      rw [applyRow]
      simp only [bind, Except.bind, exceptMapM_nil]
      rw [exceptMapM_cons]
      simp only [hg, Except.map, Except.bind, exceptMapM_nil]
      simp [oneHot_unknown hv, if_neg hv]
    rw [ppTransform, exceptMapM_cons, ha]
    simp only [Except.bind, exceptMapM_nil]
    rfl

/-- C8. Zero-variance guard: when a numeric feature has the identical value
`v` in every row of a nonempty fit dataset, the fitted scale equals the
documented positive floor `scaleFloor` (never zero), the fitted mean is `v`,
the scaled output `(v - mean) / scale` of that feature is the well-defined
rational `0` (no division by zero), and that capped statistic is exactly what
the full `fit` stores in the artifact. -/
theorem c8_zero_variance_guard (f2 : String) (rows : List Row) (v m s : ℚ)
    (hne : rows ≠ [])
    (hconst : ∀ r ∈ rows, List.lookup f2 r = some (Val.num v))
    (hfit : fitNum f2 rows = Except.ok (f2, m, s)) :
    s = scaleFloor ∧ 0 < s ∧ m = v ∧ (v - m) / s = 0 ∧
    ∀ (nf cf : List String) (P : FittedPreprocessor),
      fit nf cf rows = Except.ok P → f2 ∈ nf → (f2, m, s) ∈ P.numStats := by
  have hget : ∀ r ∈ rows, getNumPP r f2 = Except.ok v := by
    intro r hr
    rw [getNumPP, hconst r hr]
  have hmap : rows.mapM (fun r => getNumPP r f2) =
      Except.ok (List.replicate rows.length v) := exceptMapM_const hget
  have hres : fitNum f2 rows = Except.ok
      (f2, meanOf (List.replicate rows.length v),
        scaleOf (List.replicate rows.length v)) := by
    rw [fitNum, hmap]
    rfl
  rw [hres] at hfit
  cases hfit
  have hn : (rows.length : ℚ) ≠ 0 := by
    have h0 : rows.length ≠ 0 := fun h => hne (List.length_eq_zero.mp h)
    exact_mod_cast h0
  have hmean : meanOf (List.replicate rows.length v) = v := by
    rw [meanOf, List.sum_replicate, List.length_replicate, nsmul_eq_mul]
    field_simp
  have hvar : varOf (List.replicate rows.length v) = 0 := by
    rw [varOf, hmean, List.map_replicate]
    simp
  have hscale : scaleOf (List.replicate rows.length v) = scaleFloor := by
    rw [scaleOf, hvar]
    exact max_eq_right (by norm_num [scaleFloor])
  refine ⟨hscale, ?_, hmean, ?_, ?_⟩
  · rw [hscale]
    norm_num [scaleFloor]
  · rw [hmean]
    simp
  · intro nf cf P hfitP hf2
    rw [fit] at hfitP
    simp only [bind, Except.bind] at hfitP
    cases hnm : nf.mapM (fun c => fitNum c rows) with
    | error e => rw [hnm] at hfitP; cases hfitP
    | ok ns =>
      simp only [hnm] at hfitP
      cases hcm : cf.mapM (fun c => fitCat c rows) with
      | error e => simp only [hcm] at hfitP; cases hfitP
      | ok cs =>
        simp only [hcm] at hfitP
        cases hfitP
        obtain ⟨t, htmem, htf⟩ := exceptMapM_mem hnm hf2
        rw [hres] at htf
        cases htf
        exact htmem

/-- C9. Boundary binning with half-open intervals: for each of the fixed bin
tables behind `age_group`, `emp_var_category` and `duration_category`, a
value lying in a bin's half-open interval -- in particular a value exactly at
the bin's lower edge, such as age exactly 30 -- is assigned to that bin and
not its neighbor, for every boundary in the table, and out-of-range values
fall into an explicit dedicated bin. -/
theorem c9_boundary_binning :
    (∀ q : ℚ, 18 ≤ q → q < 30 → ageGroup q = "18-29") ∧
    (∀ q : ℚ, 30 ≤ q → q < 45 → ageGroup q = "30-44") ∧
    (∀ q : ℚ, 45 ≤ q → q < 60 → ageGroup q = "45-59") ∧
    (∀ q : ℚ, 60 ≤ q → ageGroup q = "60+") ∧
    (∀ q : ℚ, q < 18 → ageGroup q = "out_of_range") ∧
    (∀ q : ℚ, q < -1 → empVarCategory q = "very_negative") ∧
    (∀ q : ℚ, -1 ≤ q → q < 0 → empVarCategory q = "negative") ∧
    (∀ q : ℚ, 0 ≤ q → q < 1 → empVarCategory q = "stable") ∧
    (∀ q : ℚ, 1 ≤ q → empVarCategory q = "positive") ∧
    (∀ q : ℚ, q < 0 → durationCategory q = "out_of_range") ∧
    (∀ q : ℚ, 0 ≤ q → q < 120 → durationCategory q = "short") ∧
    (∀ q : ℚ, 120 ≤ q → q < 300 → durationCategory q = "medium") ∧
    (∀ q : ℚ, 300 ≤ q → q < 600 → durationCategory q = "long") ∧
    (∀ q : ℚ, 600 ≤ q → durationCategory q = "very_long") := by
  refine ⟨?_, ?_, ?_, ?_, ?_, ?_, ?_, ?_, ?_, ?_, ?_, ?_, ?_, ?_⟩ <;>
    intro q <;> intros <;>
    first
      | (rw [ageGroup]; split_ifs <;> first | rfl | linarith)
      | (rw [empVarCategory]; split_ifs <;> first | rfl | linarith)
      | (rw [durationCategory]; split_ifs <;> first | rfl | linarith)

/-- C10 counterexample. The operation trace of `main` in
05.1_inference_data_prep.py contains the step that persists a
`FeatureEngineer` artifact (`save_feature_engineer_artifact`, writing
`feature_engineer.pkl`, called at line 281): the inference data-preparation
path itself creates and persists an engineering artifact, so engineering
artifacts are not written by training only. -/
theorem c10_counterexample : Op.saveFEArtifact ∈ mainTrace := by decide

/-- C10 amended. The `FeatureEngineer` is stateless apart from fixed
bin-edge constants -- any two instances are equal and transform identically,
so no engineering artifact is needed for correctness; nevertheless the
inference data-preparation program itself creates and persists a
`FeatureEngineer` artifact (`feature_engineer.pkl`) for the downstream
prediction job, so the artifact flow is not training-writes/inference-reads
only. -/
theorem c10_stateless_but_persisted_by_inference :
    (∀ a b : FeatureEngineer, a = b) ∧
    (∀ (a b : FeatureEngineer) (df : DF),
      FeatureEngineer.transform a df = FeatureEngineer.transform b df) ∧
    Op.saveFEArtifact ∈ mainTrace ∧ Op.feTransform ∈ mainTrace := by
  refine ⟨fun a b => ?_, fun a b df => rfl, by decide, by decide⟩
  cases a
  cases b
  rfl

/-! ### Concrete data for the witnesses. -/

/-- A minimal raw record carrying exactly the fields feature engineering
reads. -/
def wRawMini : Row :=
  [("campaign", Val.num 1), ("pdays", Val.num 999), ("previous", Val.num 0),
   ("age", Val.num 30), ("emp.var.rate", Val.num 0), ("duration", Val.num 100)]

/-- A one-row dataframe over the minimal raw record. -/
def wSmallDF : DF :=
  ⟨["campaign", "pdays", "previous", "age", "emp.var.rate", "duration"],
   [wRawMini]⟩

/-- The engineered form of the minimal raw record. -/
def wEngMini : Row := wRawMini ++
  [("engagement_score", Val.num (-997)), ("age_group", Val.str "30-44"),
   ("emp_var_category", Val.str "stable"), ("duration_category", Val.str "short")]

/-- The engineered one-row dataframe. -/
def wEngMiniDF : DF := ⟨wSmallDF.cols ++ derivedCols, [wEngMini]⟩

/-- The concrete fitted artifact obtained by fitting `age` and `age_group`
on the engineered one-row dataset. -/
def wP : FittedPreprocessor :=
  ⟨[("age", 30, scaleFloor)], [("age_group", ["30-44"])]⟩

/-- The concrete feature matrix and unknown count of that fit. -/
def wM : List (List ℚ) × ℕ := ([[0, 1]], 0)

theorem wSmall_eval : featureTransformDF wSmallDF = Except.ok wEngMiniDF := by
  try simp [featureTransformDF, wSmallDF, wRawMini, wEngMiniDF, wEngMini,
    List.mapM, List.mapM.loop, engineerRow, getNumFE, List.lookup, bind,
    Except.bind, engagementScore, ageGroup, empVarCategory, durationCategory,
    derivedCols]
  try simp [engineerRow, getNumFE, List.lookup, bind, Except.bind,
    engagementScore, ageGroup, empVarCategory, durationCategory]
  try norm_num
  try rfl

theorem wPP_eval :
    ppFitTransform ["age"] ["age_group"] wEngMiniDF.rows = Except.ok (wM, wP) := by
  try simp [ppFitTransform, fit, fitNum, fitCat, ppTransform, applyRow,
    getNumPP, getStrPP, wEngMiniDF, wEngMini, wRawMini, List.lookup, meanOf,
    varOf, scaleOf, scaleFloor, oneHot, List.eraseDups, List.eraseDups.loop,
    List.mapM, List.mapM.loop, bind, Except.bind, pure, Except.pure,
    Except.map, wM, wP]
  try simp [fitNum, fitCat, applyRow, getNumPP, getStrPP, List.lookup, meanOf,
    varOf, scaleOf, scaleFloor, oneHot, List.eraseDups, List.eraseDups.loop,
    List.mapM, List.mapM.loop, bind, Except.bind, pure, Except.pure,
    Except.map]
  try norm_num [scaleFloor]
  try rfl

deriving instance DecidableEq for Except

/-- A full raw record with `row_id` and every feature the extraction step
selects. -/
def wFullRaw : Row :=
  [("row_id", Val.num 1), ("age", Val.num 30), ("duration", Val.num 100),
   ("campaign", Val.num 1), ("pdays", Val.num 999), ("previous", Val.num 0),
   ("emp.var.rate", Val.num 0), ("cons.price.idx", Val.num 93),
   ("cons.conf.idx", Val.num (-40)), ("euribor3m", Val.num 4),
   ("nr.employed", Val.num 5000),
   ("job", Val.str "admin"), ("marital", Val.str "married"),
   ("education", Val.str "degree"), ("default", Val.str "no"),
   ("housing", Val.str "yes"), ("loan", Val.str "no"),
   ("contact", Val.str "cellular"), ("month", Val.str "may"),
   ("day_of_week", Val.str "mon"), ("poutcome", Val.str "failure")]

/-- The one-row dataframe over the full raw record. -/
def wFullDF : DF := ⟨wFullRaw.map Prod.fst, [wFullRaw]⟩

/-- The engineered form of the full raw record. -/
def wFullEng : Row := wFullRaw ++
  [("engagement_score", Val.num (-997)), ("age_group", Val.str "30-44"),
   ("emp_var_category", Val.str "stable"), ("duration_category", Val.str "short")]

/-- The engineered one-row dataframe over the full record. -/
def wFullEngDF : DF := ⟨wFullDF.cols ++ derivedCols, [wFullEng]⟩

/-- The full record projected onto the extraction schema, in schema order. -/
def wFullX : Row :=
  [("row_id", Val.num 1), ("age", Val.num 30), ("duration", Val.num 100),
   ("campaign", Val.num 1), ("pdays", Val.num 999), ("previous", Val.num 0),
   ("emp.var.rate", Val.num 0), ("cons.price.idx", Val.num 93),
   ("cons.conf.idx", Val.num (-40)), ("euribor3m", Val.num 4),
   ("nr.employed", Val.num 5000), ("engagement_score", Val.num (-997)),
   ("job", Val.str "admin"), ("marital", Val.str "married"),
   ("education", Val.str "degree"), ("default", Val.str "no"),
   ("housing", Val.str "yes"), ("loan", Val.str "no"),
   ("contact", Val.str "cellular"), ("month", Val.str "may"),
   ("day_of_week", Val.str "mon"), ("poutcome", Val.str "failure"),
   ("age_group", Val.str "30-44"), ("emp_var_category", Val.str "stable"),
   ("duration_category", Val.str "short")]

/-- The extracted one-row dataframe over the full record. -/
def wFullXDF : DF :=
  ⟨"row_id" :: (numericFeatures true ++ categoricalFeatures), [wFullX]⟩

theorem wFull_eval : featureTransformDF wFullDF = Except.ok wFullEngDF := by
  try simp [featureTransformDF, wFullDF, wFullRaw, wFullEngDF, wFullEng,
    List.mapM, List.mapM.loop, engineerRow, getNumFE, List.lookup, bind,
    Except.bind, engagementScore, ageGroup, empVarCategory, durationCategory,
    derivedCols]
  try simp [engineerRow, getNumFE, List.lookup, bind, Except.bind,
    engagementScore, ageGroup, empVarCategory, durationCategory]
  try norm_num
  try rfl

theorem wFullX_eval :
    extractEngineeredFeatures wFullEngDF true = Except.ok wFullXDF := by
  decide

/-! ### Witnesses. -/

/-- C1 witness at the concrete one-row dataset. -/
theorem c1_witness :
    featureTransformDF wSmallDF = Except.ok wEngMiniDF ∧
    ppTransform wP wEngMiniDF.rows = Except.ok wM :=
  c1_train_serve_roundtrip wSmallDF wEngMiniDF ["age"] ["age_group"] wM wP
    wSmall_eval wPP_eval

/-- C3 witness: an empty record against an artifact expecting the numeric
feature `age`, an empty record against an artifact expecting the categorical
feature `job`, and a batch whose second row lacks the expected categorical
feature `job`. -/
theorem c3_witness :
    ppTransform ⟨[("age", 0, 1)], []⟩ ([] :: []) =
      Except.error ("SchemaMismatchError: " ++ "age") ∧
    ppTransform ⟨[], [("job", ["admin"])]⟩ ([] :: []) =
      Except.error ("SchemaMismatchError: " ++ "job") ∧
    ∀ out, ppTransform ⟨[], [("job", ["admin"])]⟩
      ([("job", Val.str "admin")] :: [] :: []) ≠ Except.ok out :=
  ⟨c3_schema_mismatch_hard_error.2.2.1 "age" 0 1 [] [] [] [] rfl,
   c3_schema_mismatch_hard_error.2.2.2 "job" ["admin"] [] [] [] rfl,
   fun out => c3_schema_mismatch_hard_error.2.1
     ⟨[], [("job", ["admin"])]⟩ ([("job", Val.str "admin")] :: [] :: [])
     [] "job" (by simp) (Or.inr (by simp)) rfl out⟩

/-- C4 witness at the concrete full record. -/
theorem c4_witness :
    wFullXDF.rows.length = wFullDF.rows.length ∧
    List.lookup "row_id" wFullX = List.lookup "row_id" wFullRaw := by
  have h := c4_row_id_preserved wFullDF wFullEngDF wFullXDF wFull_eval
    wFullX_eval (by decide)
  refine ⟨h.2.1, ?_⟩
  obtain ⟨er, xr, hoe, hox, hl1, hl2⟩ := h.2.2 0 wFullRaw rfl
  have her : er = wFullEng := by
    have : some er = some wFullEng := hoe.symm.trans rfl
    cases this
    rfl
  have hxr : xr = wFullX := by
    have : some xr = some wFullX := hox.symm.trans rfl
    cases this
    rfl
  rw [her] at hl1
  rw [hxr] at hl2
  exact hl2

/-- C5 witness at the concrete engineered full record. -/
theorem c5_witness :
    wFullXDF.cols = if "row_id" ∈ wFullEngDF.cols
      then "row_id" :: (numericFeatures true ++ categoricalFeatures)
      else numericFeatures true ++ categoricalFeatures :=
  c5_output_column_order_fixed.1 wFullEngDF true wFullXDF wFullX_eval

/-- C6 witness: the same concrete row in two identical batches engineers to
the same output row. -/
theorem c6_witness :
    featureTransformDF wSmallDF = Except.ok wEngMiniDF ∧
    wEngMiniDF.rows.get? 0 = wEngMiniDF.rows.get? 0 :=
  ⟨wSmall_eval,
   c6_feature_engineering_deterministic.2 wSmallDF wSmallDF wEngMiniDF
     wEngMiniDF 0 0 wRawMini wSmall_eval wSmall_eval rfl rfl⟩

/-- C7 witness: the unseen category `student` against a layout fit on
`admin` alone. -/
theorem c7_witness :
    ppTransform ⟨[], [("job", ["admin"])]⟩ [[("job", Val.str "student")]] =
      Except.ok ([List.replicate 1 0], 1) :=
  c7_unknown_category_fallback.2.2 "job" ["admin"]
    [("job", Val.str "student")] "student" rfl (by decide)

/-- C8 witness: a one-row fit dataset whose feature `x` is constantly 5. -/
theorem c8_witness :
    0 < scaleFloor ∧ ((5 : ℚ) - 5) / scaleFloor = 0 ∧
    ("x", (5 : ℚ), scaleFloor) ∈
      (FittedPreprocessor.mk [("x", 5, scaleFloor)] []).numStats := by
  have hfit : fitNum "x" [[("x", Val.num 5)]] =
      Except.ok ("x", 5, scaleFloor) := by
    try simp [fitNum, getNumPP, List.lookup, List.mapM, List.mapM.loop, meanOf,
      varOf, scaleOf, scaleFloor, Except.map, bind, Except.bind, pure,
      Except.pure]
    try norm_num
  have hfull : fit ["x"] [] [[("x", Val.num 5)]] =
      Except.ok ⟨[("x", 5, scaleFloor)], []⟩ := by
    try simp [fit, fitNum, fitCat, getNumPP, List.lookup, List.mapM,
      List.mapM.loop, meanOf, varOf, scaleOf, scaleFloor, Except.map, bind,
      Except.bind, pure, Except.pure]
    try norm_num
  have h := c8_zero_variance_guard "x" [[("x", Val.num 5)]] 5 5 scaleFloor
    (by simp) (by intro r hr; simp at hr; subst hr; rfl) hfit
  exact ⟨h.2.1, h.2.2.2.1, h.2.2.2.2 ["x"] [] _ hfull (by simp)⟩

/-- C9 witness: age exactly at the boundary 30 lands in the bin whose
half-open interval starts there. -/
theorem c9_witness : ageGroup 30 = "30-44" :=
  c9_boundary_binning.2.1 30 (by norm_num) (by norm_num)

end Spec2Proof
